import Mathlib

/-!
Formal model of the to-do state-management core of this repository: the
`Todo` entity, the store slice's reducers (`addTodo`, `updateTodo`,
`deleteTodo`, `toggleTodo`, `mergeTodos`, `setLoading`, `setError`), the
remote-fetch mapper `fetchTodos`, and the list screen's derived filter and
fetch handler. Reducers are translated from the slice source; JavaScript
arrays become `List`, the Redux state object becomes the structure
`TodoState`, and Immer-style in-place mutation becomes functional update.
-/

/-- Entity shape from `export interface Todo` in the store slice. -/
structure Todo where
  id : String
  name : String
  description : String
  dueDate : String
  dueTime : String
  completed : Bool
deriving DecidableEq, Repr

/-- Sort field union type `'name' | 'date' | 'time'`. -/
inductive SortBy where
  | name
  | date
  | time
deriving DecidableEq, Repr

/-- Sort order union type `'asc' | 'desc'`. -/
inductive SortOrder where
  | asc
  | desc
deriving DecidableEq, Repr

/-- State shape from `interface TodoState` in the store slice.
`error: string | null` becomes `Option String`. -/
structure TodoState where
  todos : List Todo
  searchQuery : String
  sortBy : SortBy
  sortOrder : SortOrder
  isLoading : Bool
  error : Option String
deriving DecidableEq, Repr

/-- The slice's `initialState`. -/
def initialState : TodoState :=
  { todos := [], searchQuery := "", sortBy := SortBy.date,
    sortOrder := SortOrder.asc, isLoading := false, error := none }

/-- Reducer `addTodo`: `state.todos.push(action.payload)`. -/
def addTodo (s : TodoState) (t : Todo) : TodoState :=
  { s with todos := s.todos ++ [t] }

/-- Replace the first entry whose `id` equals `t.id` by `t`, keeping its
position; identity when no entry matches. This is the list semantics of the
reducer body `findIndex` followed by `state.todos[index] = action.payload`. -/
def updateFirst (t : Todo) : List Todo → List Todo
  | [] => []
  | u :: us => if u.id == t.id then t :: us else u :: updateFirst t us

/-- Reducer `updateTodo`. -/
def updateTodo (s : TodoState) (t : Todo) : TodoState :=
  { s with todos := updateFirst t s.todos }

/-- Reducer `deleteTodo`: `state.todos.filter(todo => todo.id !== action.payload)`. -/
def deleteTodo (s : TodoState) (i : String) : TodoState :=
  { s with todos := s.todos.filter (fun t => t.id != i) }

/-- Flip `completed` on the first entry whose `id` equals `i`; identity when no
entry matches. This is the list semantics of the reducer body `find` followed
by `todo.completed = !todo.completed` on the found draft entry. -/
def toggleFirst (i : String) : List Todo → List Todo
  | [] => []
  | u :: us =>
      if u.id == i then { u with completed := !u.completed } :: us
      else u :: toggleFirst i us

/-- Reducer `toggleTodo`. -/
def toggleTodo (s : TodoState) (i : String) : TodoState :=
  { s with todos := toggleFirst i s.todos }

/-- Reducer `setLoading`. -/
def setLoading (s : TodoState) (b : Bool) : TodoState :=
  { s with isLoading := b }

/-- Reducer `setError`. -/
def setError (s : TodoState) (e : Option String) : TodoState :=
  { s with error := e }

/-- Reducer `mergeTodos`: a `Map` of the pre-merge todos keyed by `id` is
built once (`existingTodosMap`, used only through `.has`, so modelled by the
list of pre-merge ids), then each incoming todo is pushed exactly when its id
is absent from that map. The map is not updated while pushing. -/
def mergeTodos (s : TodoState) (incoming : List Todo) : TodoState :=
  let existingIds := s.todos.map (fun t => t.id)
  { s with
    todos := incoming.foldl
      (fun acc t => if existingIds.contains t.id then acc else acc ++ [t])
      s.todos }

theorem beq_symm_str (a b : String) : (a == b) = (b == a) :=
  Bool.eq_iff_iff.mpr (by simp only [beq_iff_eq]; exact eq_comm)

theorem foldl_push_filter (p : Todo → Bool) (l : List Todo) :
    ∀ acc : List Todo,
      l.foldl (fun acc t => if p t then acc else acc ++ [t]) acc
        = acc ++ l.filter (fun t => !p t) := by
  induction l with
  | nil => intro acc; simp
  | cons x xs ih =>
      intro acc
      by_cases h : p x = true
      · simp [h, ih]
      · simp [h, ih]

theorem contains_map_id (l : List Todo) (a : String) :
    (l.map (fun u => u.id)).contains a = l.any (fun u => u.id == a) := by
  induction l with
  | nil => rfl
  | cons x xs ih =>
      simp only [List.map_cons, List.contains_cons, List.any_cons, ih]
      rw [beq_symm_str]

theorem mergeTodos_todos (s : TodoState) (incoming : List Todo) :
    (mergeTodos s incoming).todos
      = s.todos ++ incoming.filter (fun t => !(s.todos.any (fun u => u.id == t.id))) := by
  have h : (mergeTodos s incoming).todos
      = incoming.foldl
          (fun acc t =>
            if (s.todos.map (fun u => u.id)).contains t.id then acc else acc ++ [t])
          s.todos := rfl
  rw [h, foldl_push_filter]
  congr 1
  apply List.filter_congr
  intro t _
  rw [contains_map_id]

/-- Sample entity used to instantiate hypotheses at concrete inputs. -/
def tA : Todo :=
  { id := "a", name := "alpha", description := "milk", dueDate := "2024-01-01",
    dueTime := "09:00:00", completed := false }

/-- Sample entity with an id distinct from `tA`. -/
def tB : Todo :=
  { id := "b", name := "beta", description := "bread", dueDate := "2024-01-02",
    dueTime := "10:00:00", completed := true }

/-- Sample entity sharing `tA`'s id but with different fields. -/
def tA' : Todo :=
  { id := "a", name := "alpha-changed", description := "tea", dueDate := "2024-02-01",
    dueTime := "11:00:00", completed := true }

/-- Sample state holding exactly `tA`. -/
def stA : TodoState := { initialState with todos := [tA] }

/-- C1: `mergeTodos` appends exactly the incoming entities whose id is absent
from the pre-merge collection, in incoming order; every pre-merge position is
untouched, and lookup of any locally present id returns the pre-merge entity. -/
theorem mergeTodos_append_only (s : TodoState) (incoming : List Todo) :
    (mergeTodos s incoming).todos
        = s.todos ++ incoming.filter (fun t => !(s.todos.any (fun u => u.id == t.id)))
      ∧ (∀ i : Nat, i < s.todos.length → (mergeTodos s incoming).todos[i]? = s.todos[i]?)
      ∧ ∀ a : String, (s.todos.any (fun u => u.id == a)) = true →
          (mergeTodos s incoming).todos.find? (fun u => u.id == a)
            = s.todos.find? (fun u => u.id == a) := by
  refine ⟨mergeTodos_todos s incoming, ?_, ?_⟩
  · intro i hi
    rw [mergeTodos_todos, List.getElem?_append]
    simp [hi]
  · intro a ha
    rw [mergeTodos_todos, List.find?_append]
    rcases hf : s.todos.find? (fun u => u.id == a) with _ | w
    · exfalso
      rw [List.any_eq_true] at ha
      obtain ⟨x, hx, hpx⟩ := ha
      have := List.find?_eq_none.mp hf x hx
      exact this hpx
    · rw [hf]
      rfl

theorem mergeTodos_append_only_witness :
    ((0 : Nat) < stA.todos.length
        ∧ (mergeTodos stA [tB]).todos[(0 : Nat)]? = stA.todos[(0 : Nat)]?)
      ∧ (stA.todos.any (fun u => u.id == "a")) = true
      ∧ (mergeTodos stA [tB]).todos.find? (fun u => u.id == "a")
          = stA.todos.find? (fun u => u.id == "a") :=
  ⟨⟨by decide, (mergeTodos_append_only stA [tB]).2.1 0 (by decide)⟩,
   by decide, (mergeTodos_append_only stA [tB]).2.2 "a" (by decide)⟩

/-- C5: merging the same incoming sequence a second time changes nothing. -/
theorem mergeTodos_idempotent (s : TodoState) (A : List Todo) :
    mergeTodos (mergeTodos s A) A = mergeTodos s A := by
  have key : ∀ t ∈ A, ((mergeTodos s A).todos.any (fun u => u.id == t.id)) = true := by
    intro t ht
    rw [mergeTodos_todos, List.any_append]
    by_cases hc : (s.todos.any (fun u => u.id == t.id)) = true
    · rw [hc]; rfl
    · have hmem : t ∈ s.todos ++ A.filter (fun t => !(s.todos.any (fun u => u.id == t.id))) := by
        apply List.mem_append_right
        rw [List.mem_filter]
        exact ⟨ht, by simp only [Bool.not_eq_true] at hc; rw [hc]; rfl⟩
      rw [← List.any_append]
      rw [List.any_eq_true]
      exact ⟨t, hmem, by simp⟩
  have h2 : (mergeTodos (mergeTodos s A) A).todos = (mergeTodos s A).todos := by
    rw [mergeTodos_todos (mergeTodos s A) A]
    have : A.filter (fun t => !((mergeTodos s A).todos.any (fun u => u.id == t.id))) = [] := by
      rw [List.filter_eq_nil_iff]
      intro t ht
      rw [key t ht]
      simp
    rw [this, List.append_nil]
  calc mergeTodos (mergeTodos s A) A
      = { mergeTodos s A with todos := (mergeTodos (mergeTodos s A) A).todos } := rfl
    _ = { mergeTodos s A with todos := (mergeTodos s A).todos } := by rw [h2]
    _ = mergeTodos s A := rfl

theorem mem_ids_mergeTodos (s : TodoState) (inc : List Todo) (x : String) :
    x ∈ (mergeTodos s inc).todos.map (fun u => u.id)
      ↔ x ∈ s.todos.map (fun u => u.id) ∨ x ∈ inc.map (fun u => u.id) := by
  rw [mergeTodos_todos, List.map_append, List.mem_append]
  constructor
  · rintro (h | h)
    · exact Or.inl h
    · refine Or.inr ?_
      rw [List.mem_map] at h ⊢
      obtain ⟨t, ht, rfl⟩ := h
      exact ⟨t, (List.mem_filter.mp ht).1, rfl⟩
  · rintro (h | h)
    · exact Or.inl h
    · by_cases hs : x ∈ s.todos.map (fun u => u.id)
      · exact Or.inl hs
      · refine Or.inr ?_
        rw [List.mem_map] at h ⊢
        obtain ⟨t, ht, rfl⟩ := h
        refine ⟨t, List.mem_filter.mpr ⟨ht, ?_⟩, rfl⟩
        rw [Bool.not_eq_true', Bool.eq_false_iff]
        intro hany
        rw [List.any_eq_true] at hany
        obtain ⟨u, hu, hbeq⟩ := hany
        rw [beq_iff_eq] at hbeq
        exact hs (List.mem_map.mpr ⟨u, hu, hbeq⟩)

/-- C6 counterexample: merging `[tA]` then `[tA']` (same id, different fields)
into the empty store yields `todos = [tA]`, while the opposite order yields
`[tA']`; the two resulting states differ, so merge calls do not commute. -/
theorem mergeTodos_comm_counterexample :
    mergeTodos (mergeTodos initialState [tA]) [tA']
      ≠ mergeTodos (mergeTodos initialState [tA']) [tA] := by decide

/-- C6 amended: merge order cannot lose or invent data keys — after merging
`A` then `B` the set of ids present in `todos` is exactly the set present
after merging `B` then `A` (both equal ids of the store joined with ids of
`A` and of `B`); the sequences themselves may differ in element order and,
for an id occurring in both incoming sequences with different payloads, in
which payload was kept. -/
theorem mergeTodos_comm_ids (s : TodoState) (A B : List Todo) (x : String) :
    x ∈ (mergeTodos (mergeTodos s A) B).todos.map (fun u => u.id)
      ↔ x ∈ (mergeTodos (mergeTodos s B) A).todos.map (fun u => u.id) := by
  rw [mem_ids_mergeTodos, mem_ids_mergeTodos, mem_ids_mergeTodos, mem_ids_mergeTodos]
  tauto

/-- C10: the merge membership test only consults the pre-merge collection, so
an incoming sequence that repeats a store-absent id is appended in full —
concretely, merging `[tA, tA']` (both id `"a"`) into the empty store leaves
`todos` with a duplicated id; uniqueness after merge does hold whenever the
store's ids and the incoming sequence's ids are each pairwise distinct. -/
theorem mergeTodos_dup_incoming :
    ¬ ((mergeTodos initialState [tA, tA']).todos.map (fun u => u.id)).Nodup
      ∧ ∀ (s : TodoState) (inc : List Todo),
          (s.todos.map (fun u => u.id)).Nodup →
          (inc.map (fun u => u.id)).Nodup →
          ((mergeTodos s inc).todos.map (fun u => u.id)).Nodup := by
  constructor
  · decide
  · intro s inc hs hinc
    rw [mergeTodos_todos, List.map_append, List.nodup_append]
    refine ⟨hs, ?_, ?_⟩
    · exact ((List.filter_sublist inc).map (fun u => u.id)).nodup hinc
    · rw [List.disjoint_left]
      intro a ha hmem
      rw [List.mem_map] at hmem
      obtain ⟨t, htf, rfl⟩ := hmem
      obtain ⟨ht, hp⟩ := List.mem_filter.mp htf
      rw [Bool.not_eq_true'] at hp
      rw [List.mem_map] at ha
      obtain ⟨u, hu, hid⟩ := ha
      have : s.todos.any (fun v => v.id == t.id) = true :=
        List.any_eq_true.mpr ⟨u, hu, by rw [beq_iff_eq]; exact hid⟩
      rw [this] at hp
      cases hp

theorem mergeTodos_dup_incoming_witness :
    ((stA.todos.map (fun u => u.id)).Nodup
        ∧ ([tB, tA'].map (fun u => u.id)).Nodup)
      ∧ ((mergeTodos stA [tB, tA']).todos.map (fun u => u.id)).Nodup :=
  ⟨⟨by decide, by decide⟩,
   mergeTodos_dup_incoming.2 stA [tB, tA'] (by decide) (by decide)⟩

theorem updateFirst_no_match (t : Todo) (l : List Todo)
    (h : ∀ u ∈ l, u.id ≠ t.id) : updateFirst t l = l := by
  induction l with
  | nil => rfl
  | cons x xs ih =>
      have hx : (x.id == t.id) = false := by
        rw [Bool.eq_false_iff]
        intro hb
        exact h x (List.mem_cons_self x xs) (beq_iff_eq.mp hb)
      rw [updateFirst, hx]
      simp only [Bool.false_eq_true, if_false]
      rw [ih (fun u hu => h u (List.mem_cons_of_mem x hu))]

theorem updateFirst_at (t : Todo) :
    ∀ (l : List Todo) (i : Nat) (u : Todo), l[i]? = some u → u.id = t.id →
      (∀ j : Nat, j < i → ∀ v, l[j]? = some v → v.id ≠ t.id) →
      (updateFirst t l)[i]? = some t
        ∧ ∀ j : Nat, j ≠ i → (updateFirst t l)[j]? = l[j]? := by
  intro l
  induction l with
  | nil => intro i u hu; simp at hu
  | cons x xs ih =>
      intro i u hu hid hfirst
      by_cases hx : (x.id == t.id) = true
      · have hxid : x.id = t.id := beq_iff_eq.mp hx
        have hi0 : i = 0 := by
          by_contra hne
          obtain ⟨k, rfl⟩ := Nat.exists_eq_succ_of_ne_zero hne
          exact hfirst 0 (Nat.succ_pos k) x (by simp) hxid
        subst hi0
        rw [updateFirst, hx]
        simp only [if_true]
        refine ⟨by simp, ?_⟩
        intro j hj
        obtain ⟨k, rfl⟩ := Nat.exists_eq_succ_of_ne_zero hj
        simp
      · simp only [Bool.not_eq_true] at hx
        rw [updateFirst, hx]
        simp only [Bool.false_eq_true, if_false]
        rcases i with _ | k
        · exfalso
          simp at hu
          subst hu
          rw [beq_iff_eq.mpr hid] at hx
          cases hx
        · have hu' : xs[k]? = some u := by simpa using hu
          have hfirst' : ∀ j : Nat, j < k → ∀ v, xs[j]? = some v → v.id ≠ t.id := by
            intro j hj v hv
            exact hfirst (j + 1) (Nat.succ_lt_succ hj) v (by simpa using hv)
          obtain ⟨h1, h2⟩ := ih k u hu' hid hfirst'
          refine ⟨by simpa using h1, ?_⟩
          intro j hj
          rcases j with _ | m
          · simp
          · have hm : m ≠ k := fun e => hj (by rw [e])
            simpa using h2 m hm

/-- C3: `updateTodo` replaces the first entry whose id equals `t.id` by `t` at
the same position and leaves every other position unchanged; when no entry
matches, the whole state (todos included) is returned untouched. -/
theorem updateTodo_spec (s : TodoState) (t : Todo) :
    ((∀ u ∈ s.todos, u.id ≠ t.id) → updateTodo s t = s)
      ∧ ∀ (i : Nat) (u : Todo), s.todos[i]? = some u → u.id = t.id →
          (∀ j : Nat, j < i → ∀ v, s.todos[j]? = some v → v.id ≠ t.id) →
          (updateTodo s t).todos[i]? = some t
            ∧ ∀ j : Nat, j ≠ i → (updateTodo s t).todos[j]? = s.todos[j]? := by
  constructor
  · intro h
    calc updateTodo s t = { s with todos := updateFirst t s.todos } := rfl
      _ = { s with todos := s.todos } := by rw [updateFirst_no_match t s.todos h]
      _ = s := rfl
  · intro i u hu hid hfirst
    exact updateFirst_at t s.todos i u hu hid hfirst

theorem updateTodo_spec_witness :
    ((∀ u ∈ stA.todos, u.id ≠ tB.id) ∧ updateTodo stA tB = stA)
      ∧ stA.todos[(0 : Nat)]? = some tA ∧ tA.id = tA'.id
        ∧ (updateTodo stA tA').todos[(0 : Nat)]? = some tA'
        ∧ (updateTodo stA tA').todos[(1 : Nat)]? = stA.todos[(1 : Nat)]? :=
  ⟨⟨by decide, (updateTodo_spec stA tB).1 (by decide)⟩,
   by decide, by decide,
   ((updateTodo_spec stA tA').2 0 tA (by decide) (by decide)
      (fun j hj v _ => absurd hj (Nat.not_lt_zero j))).1,
   ((updateTodo_spec stA tA').2 0 tA (by decide) (by decide)
      (fun j hj v _ => absurd hj (Nat.not_lt_zero j))).2 1 (by decide)⟩

theorem toggleFirst_toggleFirst (i : String) :
    ∀ l : List Todo, toggleFirst i (toggleFirst i l) = l := by
  intro l
  induction l with
  | nil => rfl
  | cons u us ih =>
      by_cases h : (u.id == i) = true
      · rw [toggleFirst, h]
        simp only [if_true]
        rw [toggleFirst]
        simp only [h, if_true, Bool.not_not]
      · simp only [Bool.not_eq_true] at h
        rw [toggleFirst, h]
        simp only [Bool.false_eq_true, if_false]
        rw [toggleFirst]
        simp only [h, Bool.false_eq_true, if_false, ih]

/-- C9: toggling the same id twice returns the store to its original state,
the no-match case included (both calls are then no-ops). -/
theorem toggleTodo_involutive (s : TodoState) (i : String) :
    toggleTodo (toggleTodo s i) i = s := by
  calc toggleTodo (toggleTodo s i) i
      = { s with todos := toggleFirst i (toggleFirst i s.todos) } := rfl
    _ = { s with todos := s.todos } := by rw [toggleFirst_toggleFirst]
    _ = s := rfl

/-- Tagged operation variants dispatched against the slice's local reducers. -/
inductive TodoOp where
  | add (t : Todo)
  | update (t : Todo)
  | deleteById (i : String)
  | toggleById (i : String)
deriving DecidableEq, Repr

/-- Dispatch one local operation to its reducer. -/
def applyOp (s : TodoState) : TodoOp → TodoState
  | TodoOp.add t => addTodo s t
  | TodoOp.update t => updateTodo s t
  | TodoOp.deleteById i => deleteTodo s i
  | TodoOp.toggleById i => toggleTodo s i

/-- Apply a finite sequence of local operations in order. -/
def applyOps (s : TodoState) (ops : List TodoOp) : TodoState :=
  ops.foldl applyOp s

/-- Holds when the operation, if an `add`, supplies an id absent from the
store it is applied to; non-add operations impose no condition. -/
def opFresh (s : TodoState) : TodoOp → Bool
  | TodoOp.add t => !((s.todos.map (fun u => u.id)).contains t.id)
  | _ => true

/-- Caller-side precondition of the spec: every `add` in the sequence supplies
an id not present in the store at the moment the add is applied. -/
def freshAdds : TodoState → List TodoOp → Bool
  | _, [] => true
  | s, op :: ops => opFresh s op && freshAdds (applyOp s op) ops

theorem updateFirst_map_id (t : Todo) :
    ∀ l : List Todo, (updateFirst t l).map (fun u => u.id) = l.map (fun u => u.id) := by
  intro l
  induction l with
  | nil => rfl
  | cons x xs ih =>
      by_cases h : (x.id == t.id) = true
      · rw [updateFirst, h]
        simp only [if_true, List.map_cons]
        rw [beq_iff_eq.mp h]
      · simp only [Bool.not_eq_true] at h
        rw [updateFirst, h]
        simp only [Bool.false_eq_true, if_false, List.map_cons, ih]

theorem toggleFirst_map_id (i : String) :
    ∀ l : List Todo, (toggleFirst i l).map (fun u => u.id) = l.map (fun u => u.id) := by
  intro l
  induction l with
  | nil => rfl
  | cons x xs ih =>
      by_cases h : (x.id == i) = true
      · rw [toggleFirst, h]
        simp only [if_true, List.map_cons]
      · simp only [Bool.not_eq_true] at h
        rw [toggleFirst, h]
        simp only [Bool.false_eq_true, if_false, List.map_cons, ih]

theorem applyOp_nodup_ids (s : TodoState) (op : TodoOp)
    (hs : (s.todos.map (fun u => u.id)).Nodup)
    (hop : opFresh s op = true) :
    ((applyOp s op).todos.map (fun u => u.id)).Nodup := by
  cases op with
  | add t =>
      simp only [opFresh, Bool.not_eq_true'] at hop
      have hmem : t.id ∉ s.todos.map (fun u => u.id) := by
        intro hin
        have : (s.todos.map (fun u => u.id)).contains t.id = true := by
          rw [List.contains_iff_exists_mem_beq]
          exact ⟨t.id, hin, by rw [beq_iff_eq]⟩
        rw [this] at hop
        cases hop
      show ((s.todos ++ [t]).map (fun u => u.id)).Nodup
      rw [List.map_append, List.nodup_append]
      refine ⟨hs, List.nodup_singleton t.id, ?_⟩
      rw [List.disjoint_left]
      intro a ha hsing
      rw [List.map_singleton, List.mem_singleton] at hsing
      subst hsing
      exact hmem ha
  | update t =>
      show ((updateFirst t s.todos).map (fun u => u.id)).Nodup
      rw [updateFirst_map_id]
      exact hs
  | deleteById i =>
      show (((s.todos.filter (fun t => t.id != i)).map (fun u => u.id)).Nodup)
      exact ((List.filter_sublist s.todos).map (fun u => u.id)).nodup hs
  | toggleById i =>
      show ((toggleFirst i s.todos).map (fun u => u.id)).Nodup
      rw [toggleFirst_map_id]
      exact hs

/-- C2: under fresh-id adds, any finite sequence of add/update/delete/toggle
operations preserves pairwise-distinct ids in `todos`. -/
theorem applyOps_nodup_ids (ops : List TodoOp) :
    ∀ s : TodoState, (s.todos.map (fun u => u.id)).Nodup →
      freshAdds s ops = true →
      ((applyOps s ops).todos.map (fun u => u.id)).Nodup := by
  induction ops with
  | nil => intro s hs _; exact hs
  | cons op ops ih =>
      intro s hs hf
      rw [freshAdds] at hf
      rw [Bool.and_eq_true] at hf
      exact ih (applyOp s op) (applyOp_nodup_ids s op hs hf.1) hf.2

/-- Concrete operation sequence exercising all four operation kinds. -/
def opsW : List TodoOp :=
  [TodoOp.add tA, TodoOp.toggleById "a", TodoOp.add tB,
   TodoOp.update tA', TodoOp.deleteById "b"]

theorem applyOps_nodup_ids_witness :
    ((initialState.todos.map (fun u => u.id)).Nodup
        ∧ freshAdds initialState opsW = true)
      ∧ ((applyOps initialState opsW).todos.map (fun u => u.id)).Nodup :=
  ⟨⟨by decide, by decide⟩,
   applyOps_nodup_ids opsW initialState (by decide) (by decide)⟩

/-- Embedding of JavaScript `toLowerCase()`: lower each character of the
string (faithful on the ASCII data this application stores). -/
def lowerStr (s : String) : String := ⟨s.data.map Char.toLower⟩

/-- Embedding of JavaScript `String.prototype.includes`: does the needle
occur as a contiguous run inside the haystack (the empty needle always does). -/
def containsSub (n : List Char) : List Char → Bool
  | [] => n.isEmpty
  | c :: rest => n.isPrefixOf (c :: rest) || containsSub n rest

/-- `hay.includes(needle)` on strings. -/
def strIncludes (hay needle : String) : Bool := containsSub needle.data hay.data

/-- The filter predicate of `sortedAndFilteredTodos` in the list screen: one
of `name`, `description`, `dueDate`, `dueTime` (lowered) contains the lowered
search query. -/
def matchesQuery (q : String) (todo : Todo) : Bool :=
  strIncludes (lowerStr todo.name) (lowerStr q)
    || strIncludes (lowerStr todo.description) (lowerStr q)
    || strIncludes (lowerStr todo.dueDate) (lowerStr q)
    || strIncludes (lowerStr todo.dueTime) (lowerStr q)

/-- The filter step of the derived view. -/
def filterTodos (q : String) (todos : List Todo) : List Todo :=
  todos.filter (fun todo => matchesQuery q todo)

theorem containsSub_iff_infix (n : List Char) :
    ∀ h : List Char, containsSub n h = true ↔ n <:+: h := by
  intro h
  induction h with
  | nil =>
      rw [containsSub, List.isEmpty_iff, List.infix_nil]
  | cons c rest ih =>
      rw [containsSub, Bool.or_eq_true, ih, List.infix_cons_iff,
        List.isPrefixOf_iff_prefix]

theorem containsSub_nil (h : List Char) : containsSub [] h = true := by
  cases h with
  | nil => rfl
  | cons c rest => rw [containsSub]; rfl

/-- C7: membership in the filtered view holds exactly when the lowered query
is a contiguous substring of one of the entity's four lowered text fields;
the empty query keeps the whole collection, and a query that occurs in no
entity's four fields filters everything out. -/
theorem filterTodos_spec (q : String) (todos : List Todo) :
    (∀ t : Todo, t ∈ filterTodos q todos ↔ t ∈ todos ∧
        ((lowerStr q).data <:+: (lowerStr t.name).data
          ∨ (lowerStr q).data <:+: (lowerStr t.description).data
          ∨ (lowerStr q).data <:+: (lowerStr t.dueDate).data
          ∨ (lowerStr q).data <:+: (lowerStr t.dueTime).data))
      ∧ filterTodos "" todos = todos
      ∧ ((∀ t ∈ todos,
            ¬ ((lowerStr q).data <:+: (lowerStr t.name).data)
              ∧ ¬ ((lowerStr q).data <:+: (lowerStr t.description).data)
              ∧ ¬ ((lowerStr q).data <:+: (lowerStr t.dueDate).data)
              ∧ ¬ ((lowerStr q).data <:+: (lowerStr t.dueTime).data)) →
          filterTodos q todos = []) := by
  refine ⟨?_, ?_, ?_⟩
  · intro t
    rw [filterTodos, List.mem_filter, matchesQuery, strIncludes, strIncludes,
      strIncludes, strIncludes, Bool.or_eq_true, Bool.or_eq_true,
      Bool.or_eq_true, containsSub_iff_infix, containsSub_iff_infix,
      containsSub_iff_infix, containsSub_iff_infix]
    tauto
  · rw [filterTodos, List.filter_eq_self]
    intro t _
    rw [matchesQuery, strIncludes]
    have h0 : (lowerStr "").data = [] := rfl
    rw [h0, containsSub_nil, Bool.true_or, Bool.true_or, Bool.true_or]
  · intro hnone
    rw [filterTodos, List.filter_eq_nil_iff]
    intro t ht
    obtain ⟨h1, h2, h3, h4⟩ := hnone t ht
    rw [matchesQuery, strIncludes, strIncludes, strIncludes, strIncludes]
    intro hcontra
    rw [Bool.or_eq_true, Bool.or_eq_true, Bool.or_eq_true,
      containsSub_iff_infix, containsSub_iff_infix, containsSub_iff_infix,
      containsSub_iff_infix] at hcontra
    tauto

theorem filterTodos_spec_witness :
    (tA ∈ filterTodos "ALPHA" [tA, tB]
        ∧ tA ∈ [tA, tB]
        ∧ (lowerStr "ALPHA").data <:+: (lowerStr tA.name).data)
      ∧ filterTodos "" [tA, tB] = [tA, tB]
      ∧ ((∀ t ∈ [tA, tB],
            ¬ ((lowerStr "zzz").data <:+: (lowerStr t.name).data)
              ∧ ¬ ((lowerStr "zzz").data <:+: (lowerStr t.description).data)
              ∧ ¬ ((lowerStr "zzz").data <:+: (lowerStr t.dueDate).data)
              ∧ ¬ ((lowerStr "zzz").data <:+: (lowerStr t.dueTime).data))
          ∧ filterTodos "zzz" [tA, tB] = []) :=
  ⟨⟨((filterTodos_spec "ALPHA" [tA, tB]).1 tA).mpr
      ⟨by decide, Or.inl (by decide)⟩,
    by decide, by decide⟩,
   (filterTodos_spec "x" [tA, tB]).2.1,
   ⟨by decide, (filterTodos_spec "zzz" [tA, tB]).2.2 (by decide)⟩⟩

/-- Remote record shape from `export interface ApiTodo`. -/
structure ApiTodo where
  userId : Int
  id : Int
  title : String
  completed : Bool
deriving DecidableEq, Repr

/-- Success path of `fetchTodos` in the api service: map each remote record
into the `Todo` shape. The expression `new Date().toISOString().split('T')[0]`
(the fetch time's UTC calendar date, one `YYYY-MM-DD` string shared by the
whole response) is modelled by the parameter `fetchDate`. -/
def fetchTodos (fetchDate : String) (resp : List ApiTodo) : List Todo :=
  resp.map (fun todo =>
    { id := toString todo.id, name := todo.title, description := "",
      dueDate := fetchDate, dueTime := "00:00", completed := todo.completed })

/-- A string has the `HH:MM:SS` shape: eight characters, digits in the hour,
minute and second positions, colons between the groups. -/
def isHHMMSS (s : String) : Bool :=
  match s.data with
  | [h1, h2, c1, m1, m2, c2, s1, s2] =>
      h1.isDigit && h2.isDigit && c1 == ':' && m1.isDigit && m2.isDigit
        && c2 == ':' && s1.isDigit && s2.isDigit
  | _ => false

/-- C8 counterexample: the mapper emits `dueTime = "00:00"`, which is not an
`HH:MM:SS` string and differs from midnight written as `"00:00:00"`. -/
theorem fetchTodos_dueTime_counterexample :
    (fetchTodos "2024-01-01"
        [{ userId := 1, id := 1, title := "delectus aut autem", completed := false }]).map
          (fun t => t.dueTime) = ["00:00"]
      ∧ isHHMMSS "00:00" = false
      ∧ "00:00" ≠ "00:00:00" := by
  refine ⟨rfl, rfl, ?_⟩
  decide

/-- C8 amended: each remote record maps to a Todo by stringifying its integer
id, copying `title` into `name` and `completed` into `completed`, dropping
`userId`, and synthesizing `description` as the empty string, `dueDate` as
the fetch time's date, and `dueTime` as the fixed `HH:MM` string `"00:00"`
(midnight, not an `HH:MM:SS` string). -/
theorem fetchTodos_maps (fetchDate : String) (resp : List ApiTodo) :
    (fetchTodos fetchDate resp).length = resp.length
      ∧ ∀ (i : Nat) (r : ApiTodo), resp[i]? = some r →
          (fetchTodos fetchDate resp)[i]? = some
            { id := toString r.id, name := r.title, description := "",
              dueDate := fetchDate, dueTime := "00:00", completed := r.completed } := by
  constructor
  · rw [fetchTodos, List.length_map]
  · intro i r hr
    rw [fetchTodos, List.getElem?_map, hr]
    rfl

theorem fetchTodos_maps_witness :
    ([{ userId := 7, id := 12, title := "t", completed := true }] :
        List ApiTodo)[(0 : Nat)]? = some { userId := 7, id := 12, title := "t", completed := true }
      ∧ (fetchTodos "2024-06-30" [{ userId := 7, id := 12, title := "t", completed := true }])[(0 : Nat)]?
          = some { id := "12", name := "t", description := "", dueDate := "2024-06-30",
                   dueTime := "00:00", completed := true } :=
  ⟨rfl,
   (fetchTodos_maps "2024-06-30"
      [{ userId := 7, id := 12, title := "t", completed := true }]).2 0
      { userId := 7, id := 12, title := "t", completed := true } rfl⟩

/-- Store actions the fetch handler dispatches. -/
inductive StoreAction where
  | loading (b : Bool)
  | errorMsg (e : Option String)
  | merge (ts : List Todo)
deriving DecidableEq, Repr

/-- Route a dispatched action to its reducer. -/
def dispatch (s : TodoState) : StoreAction → TodoState
  | StoreAction.loading b => setLoading s b
  | StoreAction.errorMsg e => setError s e
  | StoreAction.merge ts => mergeTodos s ts

/-- Run a dispatched action sequence left to right. -/
def runStoreActions (s : TodoState) (as : List StoreAction) : TodoState :=
  as.foldl dispatch s

/-- Dispatch trace of `handleFetchTodos` in the list screen. The awaited
fetch either resolves with a todo list or throws; a thrown error surfaces as
the message string (`err.message`, or the fallback text for a non-`Error`
throw). The `try` body dispatches loading-true, error-null, then merge on
resolution; `catch` dispatches the error message; `finally` always
dispatches loading-false. -/
def handleFetchTodos (r : Except String (List Todo)) : List StoreAction :=
  [StoreAction.loading true, StoreAction.errorMsg none]
    ++ (match r with
        | Except.ok ts => [StoreAction.merge ts]
        | Except.error msg => [StoreAction.errorMsg (some msg)])
    ++ [StoreAction.loading false]

/-- True exactly on the action that clears the loading flag. -/
def clearsLoading : StoreAction → Bool
  | StoreAction.loading false => true
  | _ => false

/-- C4: the handler's trace starts by setting loading and clearing the error,
dispatches exactly one loading-false (success or failure), ends with loading
cleared; on success the error stays cleared and the collection is the merge
of the fetched todos; on failure the error carries the message and the
collection is byte-for-byte the input collection. -/
theorem handleFetchTodos_spec (s : TodoState) (r : Except String (List Todo)) :
    (handleFetchTodos r).take 2 = [StoreAction.loading true, StoreAction.errorMsg none]
      ∧ (handleFetchTodos r).countP clearsLoading = 1
      ∧ (runStoreActions s (handleFetchTodos r)).isLoading = false
      ∧ (∀ ts, r = Except.ok ts →
          (runStoreActions s (handleFetchTodos r)).error = none
            ∧ (runStoreActions s (handleFetchTodos r)).todos = (mergeTodos s ts).todos)
      ∧ ∀ msg, r = Except.error msg →
          (runStoreActions s (handleFetchTodos r)).error = some msg
            ∧ (runStoreActions s (handleFetchTodos r)).todos = s.todos := by
  cases r with
  | ok ts =>
      refine ⟨rfl, rfl, rfl, ?_, ?_⟩
      · intro ts' h
        injection h with h
        subst h
        exact ⟨rfl, rfl⟩
      · intro msg h
        cases h
  | error msg =>
      refine ⟨rfl, rfl, rfl, ?_, ?_⟩
      · intro ts h
        cases h
      · intro msg' h
        injection h with h
        subst h
        exact ⟨rfl, rfl⟩

theorem handleFetchTodos_spec_witness :
    ((runStoreActions stA (handleFetchTodos (Except.ok [tB]))).error = none
        ∧ (runStoreActions stA (handleFetchTodos (Except.ok [tB]))).todos
            = (mergeTodos stA [tB]).todos)
      ∧ (runStoreActions stA (handleFetchTodos (Except.error "Network Error"))).error
          = some "Network Error"
        ∧ (runStoreActions stA (handleFetchTodos (Except.error "Network Error"))).todos
            = stA.todos :=
  ⟨(handleFetchTodos_spec stA (Except.ok [tB])).2.2.2.1 [tB] rfl,
   (handleFetchTodos_spec stA (Except.error "Network Error")).2.2.2.2
     "Network Error" rfl⟩
